import Mathlib

/-!
Shallow embedding of the claude-statusline rendering pipeline.

The definitions below are translated from the repository's TypeScript
sources: the token utilities (estimateTokens, parseConversationTokens,
calculateTokenUsage, getContextWarning), the configuration resolver
(loadConfig), the formatting utilities (formatDuration, formatPath and the
three progress-bar styles) and the top-level error handling of the two
entry points.  JavaScript numbers are modelled as exact rationals, machine
integers as Nat/Int, and environment access as explicit function
parameters.
-/

namespace Statusline

/-- JavaScript Math.round on exact rationals: the floor of x + 1/2
(ties round toward positive infinity, as in ECMAScript). -/
def jsRound (x : ℚ) : ℤ := ⌊x + 1/2⌋

/-- Whitespace characters matched by the JavaScript regex class \s
(restricted to the common ASCII whitespace characters). -/
def jsWs (c : Char) : Bool :=
  c = ' ' || c = '\t' || c = '\n' || c = '\r' || c = '\x0b' || c = '\x0c'

/-- Numeric value of a decimal digit character. -/
def digitVal (c : Char) : ℕ := c.toNat - '0'.toNat

/-- Decimal value of a list of digit characters (most significant first). -/
def digitsToNat (l : List Char) : ℕ := l.foldl (fun a c => 10 * a + digitVal c) 0

/-- The replacement text.replace(re-ws-plus, SPACE) used by estimateTokens:
every maximal run of whitespace becomes a single space.  The boolean flag
records whether the space for the current run was already emitted. -/
def collapseWsAux : List Char → Bool → List Char
  | [], _ => []
  | c :: cs, inRun =>
      if jsWs c then
        if inRun then collapseWsAux cs true else ' ' :: collapseWsAux cs true
      else c :: collapseWsAux cs false

/-- Collapse whitespace runs to single spaces, starting outside a run. -/
def collapseWs (l : List Char) : List Char := collapseWsAux l false

/-- JavaScript String.prototype.trim on a character list: drop whitespace
from both ends. -/
def jsTrim (l : List Char) : List Char :=
  ((l.dropWhile jsWs).reverse.dropWhile jsWs).reverse

/-- estimateTokens from hooks/utils/token.ts: the empty string gives 0,
otherwise collapse whitespace runs to single spaces, trim, and divide the
character count by 4 rounding up (Math.ceil(n / 4) = (n + 3) / 4 on
naturals). -/
def estimateTokens (s : String) : ℕ :=
  if s = "" then 0
  else ((jsTrim (collapseWs s.data)).length + 3) / 4

/-- Dropping a prefix by a predicate never lengthens a list. -/
theorem length_dropWhile_le (p : Char → Bool) (l : List Char) :
    (l.dropWhile p).length ≤ l.length := by
  induction l with
  | nil => simp
  | cons a l ih =>
      rw [List.dropWhile_cons]
      split
      · exact Nat.le_succ_of_le ih
      · simp

/-- Greedy consumption of the regex group of comma-separated digit blocks
in parseConversationTokens' pattern: while the input starts with a comma
followed by a digit, consume the comma and the maximal digit run.  Returns
the consumed digits (the commas that parseInt later strips are dropped
here) together with the remaining input. -/
def eatCommaGroups (l : List Char) : List Char × List Char :=
  match l with
  | ',' :: c :: cs =>
      if hc : c.isDigit then
        let ds := (c :: cs).takeWhile Char.isDigit
        let p := eatCommaGroups ((c :: cs).dropWhile Char.isDigit)
        (ds ++ p.1, p.2)
      else ([], ',' :: c :: cs)
  | l => ([], l)
termination_by l.length
decreasing_by
  simp only [List.dropWhile_cons, hc, if_true]
  exact Nat.lt_succ_of_le (Nat.le_succ_of_le (length_dropWhile_le _ _))

/-- Case-insensitive match of the literal word of the regex: the input
begins with t, o, k, e, n in any case.  The optional trailing s of the
regex always succeeds and never affects the captured number. -/
def matchTokenWord : List Char → Bool
  | a :: b :: c :: d :: e :: _ =>
      a.toLower = 't' && b.toLower = 'o' && c.toLower = 'k' &&
      d.toLower = 'e' && e.toLower = 'n'
  | _ => false

/-- One attempt of the token-count regex at the start of the input: a
nonempty maximal digit run, then greedily comma-digit groups, then optional
whitespace, then the word token (case-insensitive).  Returns the numeric
value of the captured digits with commas removed. -/
def tryTokenMatch (l : List Char) : Option ℕ :=
  let ds := l.takeWhile Char.isDigit
  if ds = [] then none
  else
    let p := eatCommaGroups (l.dropWhile Char.isDigit)
    if matchTokenWord (p.2.dropWhile jsWs) then some (digitsToNat (ds ++ p.1))
    else none

/-- Leftmost match of the token-count regex over the whole input, as
String.prototype.match scans candidate match starts left to right. -/
def findTokenCount : List Char → Option ℕ
  | [] => none
  | c :: cs =>
      match tryTokenMatch (c :: cs) with
      | some n => some n
      | none => findTokenCount cs

/-- parseConversationTokens from hooks/utils/token.ts: an empty summary
gives 0; a token count embedded in the summary (regex match) wins;
otherwise fall back to estimateTokens. -/
def parseConversationTokens (summary : String) : ℕ :=
  if summary = "" then 0
  else
    match findTokenCount summary.data with
    | some n => n
    | none => estimateTokens summary

/-- TokenUsage record from src/types.ts. -/
structure TokenUsage where
  current : ℤ
  max : ℤ
  percentage : ℤ
deriving DecidableEq, Repr

/-- calculateTokenUsage from hooks/utils/token.ts: parse the summary, clamp
the count to the configured maximum, and round the ratio to a
percentage. -/
def calculateTokenUsage (summary : Option String) (maxTokens : ℤ) : TokenUsage :=
  let current : ℤ := parseConversationTokens (summary.getD "")
  let safeCurrent := min current maxTokens
  let percentage := jsRound (((safeCurrent : ℚ) / (maxTokens : ℚ)) * 100)
  { current := safeCurrent, max := maxTokens, percentage := percentage }

/-- isContextCritical from hooks/utils/token.ts (default threshold 90). -/
def isContextCritical (usage : TokenUsage) (threshold : ℤ := 90) : Bool :=
  decide (threshold ≤ usage.percentage)

/-- isContextLow from hooks/utils/token.ts (default threshold 75). -/
def isContextLow (usage : TokenUsage) (threshold : ℤ := 75) : Bool :=
  decide (threshold ≤ usage.percentage)

/-- getContextWarning from hooks/utils/token.ts. -/
def getContextWarning (usage : TokenUsage) : Option String :=
  if isContextCritical usage then
    some "⚠️ Context window nearly full! Consider starting a new session."
  else if isContextLow usage then
    some "ℹ️ Context usage is above 75%. Some history may be summarized."
  else none

/-- Rounding is monotone. -/
theorem jsRound_le_jsRound {a b : ℚ} (h : a ≤ b) : jsRound a ≤ jsRound b :=
  Int.floor_le_floor (by linarith)

/-- Rounding an integer returns it unchanged. -/
theorem jsRound_intCast (z : ℤ) : jsRound (z : ℚ) = z := by
  unfold jsRound
  rw [Int.floor_int_add]
  norm_num

/-- C1: for every summary and every configured maximum max > 0,
calculateTokenUsage returns a percentage in [0, 100] equal to
round(100 * min(raw, max) / max), where raw is the raw token count parsed
from the summary; the raw count is clamped to max before the percentage is
computed. -/
theorem calculateTokenUsage_percentage_spec (summary : Option String) (max : ℤ)
    (hmax : 0 < max) :
    0 ≤ (calculateTokenUsage summary max).percentage ∧
    (calculateTokenUsage summary max).percentage ≤ 100 ∧
    (calculateTokenUsage summary max).percentage =
      jsRound (100 * ((min ((parseConversationTokens (summary.getD "") : ℤ)) max : ℤ) : ℚ) / (max : ℚ)) := by
  set raw : ℤ := (parseConversationTokens (summary.getD "") : ℤ) with hraw
  have hraw0 : 0 ≤ raw := by positivity
  set c : ℤ := min raw max with hc
  have hc0 : 0 ≤ c := le_min hraw0 hmax.le
  have hcm : c ≤ max := min_le_right _ _
  have hmaxQ : (0 : ℚ) < (max : ℚ) := by exact_mod_cast hmax
  have hperc : (calculateTokenUsage summary max).percentage =
      jsRound (((c : ℚ) / (max : ℚ)) * 100) := rfl
  have hq0 : (0 : ℚ) ≤ ((c : ℚ) / (max : ℚ)) * 100 := by positivity
  have hq100 : ((c : ℚ) / (max : ℚ)) * 100 ≤ 100 := by
    have h1 : (c : ℚ) / (max : ℚ) ≤ 1 := by
      rw [div_le_one hmaxQ]
      exact_mod_cast hcm
    nlinarith
  refine ⟨?_, ?_, ?_⟩
  · rw [hperc]
    have := jsRound_le_jsRound hq0
    rwa [show ((0 : ℚ)) = ((0 : ℤ) : ℚ) by norm_num, jsRound_intCast] at this
  · rw [hperc]
    have := jsRound_le_jsRound hq100
    rwa [show ((100 : ℚ)) = ((100 : ℤ) : ℚ) by norm_num, jsRound_intCast] at this
  · rw [hperc]
    congr 1
    ring

/-- Witness for C1 at a concrete summary and maximum. -/
theorem calculateTokenUsage_percentage_spec_witness :
    0 ≤ (calculateTokenUsage (some "3000 tokens used so far") 200000).percentage ∧
    (calculateTokenUsage (some "3000 tokens used so far") 200000).percentage ≤ 100 ∧
    (calculateTokenUsage (some "3000 tokens used so far") 200000).percentage =
      jsRound (100 * ((min ((parseConversationTokens (((some "3000 tokens used so far").getD "") : String) : ℤ)) 200000 : ℤ) : ℚ) / ((200000 : ℤ) : ℚ)) :=
  calculateTokenUsage_percentage_spec (some "3000 tokens used so far") 200000 (by norm_num)

/-- C9: getContextWarning returns the critical warning exactly when the
percentage is at least 90, the milder caution warning exactly when it is in
[75, 90), and nothing exactly when it is below 75; at percentage 92 it is
critical, at 80 caution, at 50 none. -/
theorem getContextWarning_thresholds (u : TokenUsage) :
    (getContextWarning u =
        some "⚠️ Context window nearly full! Consider starting a new session." ↔
      90 ≤ u.percentage) ∧
    (getContextWarning u =
        some "ℹ️ Context usage is above 75%. Some history may be summarized." ↔
      75 ≤ u.percentage ∧ u.percentage < 90) ∧
    (getContextWarning u = none ↔ u.percentage < 75) ∧
    getContextWarning ⟨184000, 200000, 92⟩ =
      some "⚠️ Context window nearly full! Consider starting a new session." ∧
    getContextWarning ⟨160000, 200000, 80⟩ =
      some "ℹ️ Context usage is above 75%. Some history may be summarized." ∧
    getContextWarning ⟨100000, 200000, 50⟩ = none := by
  refine ⟨?_, ?_, ?_, by decide, by decide, by decide⟩ <;>
    · unfold getContextWarning isContextCritical isContextLow
      split_ifs with h1 h2 <;> simp_all <;> omega

/-- Ceiling division by 4 agrees with the rational ceiling. -/
theorem natCeilDivFour (n : ℕ) : (((n + 3) / 4 : ℕ) : ℤ) = ⌈(n : ℚ) / 4⌉ := by
  set k := (n + 3) / 4 with hk
  have hdm : 4 * k + (n + 3) % 4 = n + 3 := Nat.div_add_mod (n + 3) 4
  have hmlt : (n + 3) % 4 < 4 := Nat.mod_lt _ (by norm_num)
  have h1 : 4 * k ≤ n + 3 := by omega
  have h2 : n ≤ 4 * k := by omega
  have q1 : (4 * (k : ℚ)) ≤ (n : ℚ) + 3 := by exact_mod_cast h1
  have q2 : (n : ℚ) ≤ 4 * (k : ℚ) := by exact_mod_cast h2
  rw [eq_comm, Int.ceil_eq_iff]
  constructor <;> push_cast <;> linarith

/-- Collapsing an all-whitespace list yields nothing inside a run and a
single space outside one (for nonempty input). -/
theorem collapseWsAux_all_ws (l : List Char) (h : ∀ c ∈ l, jsWs c) :
    collapseWsAux l true = [] ∧
      collapseWsAux l false = (if l = [] then [] else [' ']) := by
  induction l with
  | nil => simp [collapseWsAux]
  | cons a l ih =>
      have ha : jsWs a := h a (by simp)
      have ih' := ih (fun c hc => h c (by simp [hc]))
      simp [collapseWsAux, ha, ih'.1]

/-- C7: estimateTokens is the ceiling of a quarter of the length of the
whitespace-collapsed and trimmed input; the empty string gives 0 and an
all-whitespace string gives 0. -/
theorem estimateTokens_spec (s : String) :
    (estimateTokens s : ℤ) = ⌈((jsTrim (collapseWs s.data)).length : ℚ) / 4⌉ ∧
    estimateTokens "" = 0 ∧
    ((∀ c ∈ s.data, jsWs c) → estimateTokens s = 0) := by
  refine ⟨?_, rfl, ?_⟩
  · unfold estimateTokens
    split_ifs with hs
    · subst hs
      simp [collapseWs, collapseWsAux, jsTrim]
    · exact natCeilDivFour _
  · intro hws
    unfold estimateTokens
    split_ifs with hs
    · rfl
    · have hne : s.data ≠ [] := by
        intro hnil
        exact hs (by cases s with | mk d => simp_all)
      have := (collapseWsAux_all_ws s.data hws).2
      rw [if_neg hne] at this
      rw [collapseWs, this]
      simp [jsTrim, jsWs]

/-- Witness for C7 at a concrete all-whitespace input. -/
theorem estimateTokens_spec_witness :
    ((estimateTokens "  \t  " : ℤ) =
        ⌈((jsTrim (collapseWs ("  \t  " : String).data)).length : ℚ) / 4⌉ ∧
      estimateTokens "" = 0 ∧
      ((∀ c ∈ ("  \t  " : String).data, jsWs c) → estimateTokens "  \t  " = 0)) ∧
    estimateTokens "  \t  " = 0 := by
  refine ⟨estimateTokens_spec "  \t  ", ?_⟩
  exact (estimateTokens_spec "  \t  ").2.2 (by decide)

/-- A whitespace character is not a decimal digit. -/
theorem jsWs_not_digit {c : Char} (h : jsWs c = true) : c.isDigit = false := by
  simp only [jsWs, Bool.or_eq_true, decide_eq_true_eq] at h
  rcases h with ((((h | h) | h) | h) | h) | h <;> subst h <;> decide

/-- A whitespace character is not a comma. -/
theorem jsWs_ne_comma {c : Char} (h : jsWs c = true) : c ≠ ',' := by
  simp only [jsWs, Bool.or_eq_true, decide_eq_true_eq] at h
  rcases h with ((((h | h) | h) | h) | h) | h <;> subst h <;> decide

/-- The two case variants of the letter t are not whitespace, not digits,
and not commas. -/
theorem tVariant_facts {c : Char} (h : c = 't' ∨ c = 'T') :
    jsWs c = false ∧ c.isDigit = false ∧ c ≠ ',' := by
  rcases h with h | h <;> subst h <;> refine ⟨by decide, by decide, by decide⟩

/-- A match attempt at a non-digit character fails. -/
theorem tryTokenMatch_cons_not_digit (a : Char) (l : List Char)
    (ha : a.isDigit = false) : tryTokenMatch (a :: l) = none := by
  simp [tryTokenMatch, List.takeWhile_cons, ha]

/-- Scanning skips over a digit-free prefix. -/
theorem findTokenCount_append_not_digit (pre l : List Char)
    (h : ∀ c ∈ pre, c.isDigit = false) :
    findTokenCount (pre ++ l) = findTokenCount l := by
  induction pre with
  | nil => rfl
  | cons a pre ih =>
      have ha := h a (by simp)
      rw [List.cons_append]
      simp only [findTokenCount, tryTokenMatch_cons_not_digit a _ ha]
      exact ih (fun c hc => h c (by simp [hc]))

/-- The comma-group eater consumes nothing when the input does not start
with a comma. -/
theorem eatCommaGroups_not_comma (l : List Char)
    (h : ∀ c, l.head? = some c → c ≠ ',') :
    eatCommaGroups l = ([], l) := by
  rw [eatCommaGroups.eq_def]
  split
  · exact absurd rfl (h ',' rfl)
  · rfl

/-- The comma-group eater consumes exactly the rendered comma groups when
the tail starts with neither a comma nor a digit. -/
theorem eatCommaGroups_groups (groups : List (List Char)) (tail : List Char)
    (hg : ∀ g ∈ groups, g ≠ [] ∧ ∀ c ∈ g, c.isDigit = true)
    (htail : ∀ c, tail.head? = some c → c ≠ ',' ∧ c.isDigit = false) :
    eatCommaGroups ((groups.map (fun g => ',' :: g)).flatten ++ tail) =
      (groups.flatten, tail) := by
  induction groups with
  | nil =>
      simpa using eatCommaGroups_not_comma tail (fun c hc => (htail c hc).1)
  | cons g gs ih =>
      obtain ⟨hgne, hgd⟩ := hg g (by simp)
      obtain ⟨d, ds, rfl⟩ : ∃ d ds, g = d :: ds := by
        cases g with
        | nil => exact absurd rfl hgne
        | cons d ds => exact ⟨d, ds, rfl⟩
      have hd : d.isDigit = true := hgd d (by simp)
      have hjoinTail : ∀ c, ((gs.map (fun g => ',' :: g)).flatten ++ tail).head? = some c →
          c.isDigit = false := by
        intro c hc
        cases hgs : gs with
        | nil =>
            rw [hgs] at hc
            simp at hc
            exact (htail c hc).2
        | cons g' gs' =>
            rw [hgs] at hc
            simp at hc
            subst hc
            decide
      have h1 : ((d :: ds) ++ ((gs.map (fun g => ',' :: g)).flatten ++ tail)).takeWhile Char.isDigit
          = (d :: ds) := by
        rw [List.takeWhile_append_of_pos (by intro a hc; exact hgd a hc)]
        cases hrem : (gs.map (fun g => ',' :: g)).flatten ++ tail with
        | nil => simp
        | cons r rs =>
            have := hjoinTail r (by rw [hrem]; rfl)
            simp [List.takeWhile_cons, this]
      have h2 : ((d :: ds) ++ ((gs.map (fun g => ',' :: g)).flatten ++ tail)).dropWhile Char.isDigit
          = (gs.map (fun g => ',' :: g)).flatten ++ tail := by
        rw [List.dropWhile_append_of_pos (by intro a hc; exact hgd a hc)]
        cases hrem : (gs.map (fun g => ',' :: g)).flatten ++ tail with
        | nil => simp
        | cons r rs =>
            have := hjoinTail r (by rw [hrem]; rfl)
            simp [List.dropWhile_cons, this]
      have hrec := ih (fun g hg' => hg g (by simp [hg']))
      simp only [List.cons_append] at h1 h2
      simp only [List.map_cons, List.flatten_cons, List.cons_append, List.append_assoc]
      rw [eatCommaGroups]
      simp only [hd, dite_true]
      rw [h1, h2, hrec]
      simp

/-- A successful match attempt: a grouped number followed by optional
whitespace and a case variant of the word token captures exactly the
digits of the number. -/
theorem tryTokenMatch_grouped
    (leading : List Char) (groups : List (List Char)) (ws : List Char)
    (t1 t2 t3 t4 t5 : Char) (rest : List Char)
    (hlead : leading ≠ []) (hleadD : ∀ c ∈ leading, c.isDigit = true)
    (hg : ∀ g ∈ groups, g ≠ [] ∧ ∀ c ∈ g, c.isDigit = true)
    (hws : ∀ c ∈ ws, jsWs c = true)
    (ht1 : t1 = 't' ∨ t1 = 'T') (ht2 : t2 = 'o' ∨ t2 = 'O')
    (ht3 : t3 = 'k' ∨ t3 = 'K') (ht4 : t4 = 'e' ∨ t4 = 'E')
    (ht5 : t5 = 'n' ∨ t5 = 'N') :
    tryTokenMatch (leading ++ ((groups.map (fun g => ',' :: g)).flatten ++
        (ws ++ t1 :: t2 :: t3 :: t4 :: t5 :: rest))) =
      some (digitsToNat (leading ++ groups.flatten)) := by
  obtain ⟨ht1ws, ht1d, ht1c⟩ := tVariant_facts ht1
  have hwsNotDigit : ∀ c ∈ ws, c.isDigit = false := fun c hc => jsWs_not_digit (hws c hc)
  have hafter : ∀ c, ((groups.map (fun g => ',' :: g)).flatten ++
      (ws ++ t1 :: t2 :: t3 :: t4 :: t5 :: rest)).head? = some c → c.isDigit = false := by
    intro c hc
    cases hgs : groups with
    | nil =>
        rw [hgs] at hc
        simp at hc
        cases hws' : ws with
        | nil =>
            rw [hws'] at hc
            simp at hc
            subst hc
            exact ht1d
        | cons w ws' =>
            rw [hws'] at hc
            simp at hc
            subst hc
            exact jsWs_not_digit (hws w (by simp [hws']))
    | cons g' gs' =>
        obtain ⟨hg'ne, _⟩ := hg g' (by simp [hgs])
        rw [hgs] at hc
        simp at hc
        subst hc
        decide
  have htail : ∀ c, (ws ++ t1 :: t2 :: t3 :: t4 :: t5 :: rest).head? = some c →
      c ≠ ',' ∧ c.isDigit = false := by
    intro c hc
    cases hws' : ws with
    | nil =>
        rw [hws'] at hc
        simp at hc
        subst hc
        exact ⟨ht1c, ht1d⟩
    | cons w ws' =>
        rw [hws'] at hc
        simp at hc
        subst hc
        exact ⟨jsWs_ne_comma (hws w (by simp [hws'])),
          jsWs_not_digit (hws w (by simp [hws']))⟩
  have htake : (leading ++ ((groups.map (fun g => ',' :: g)).flatten ++
      (ws ++ t1 :: t2 :: t3 :: t4 :: t5 :: rest))).takeWhile Char.isDigit = leading := by
    rw [List.takeWhile_append_of_pos (by intro a hc; exact hleadD a hc)]
    cases hrem : (groups.map (fun g => ',' :: g)).flatten ++
        (ws ++ t1 :: t2 :: t3 :: t4 :: t5 :: rest) with
    | nil => simp
    | cons r rs =>
        have := hafter r (by rw [hrem]; rfl)
        simp [List.takeWhile_cons, this]
  have hdrop : (leading ++ ((groups.map (fun g => ',' :: g)).flatten ++
      (ws ++ t1 :: t2 :: t3 :: t4 :: t5 :: rest))).dropWhile Char.isDigit =
      (groups.map (fun g => ',' :: g)).flatten ++
        (ws ++ t1 :: t2 :: t3 :: t4 :: t5 :: rest) := by
    rw [List.dropWhile_append_of_pos (by intro a hc; exact hleadD a hc)]
    cases hrem : (groups.map (fun g => ',' :: g)).flatten ++
        (ws ++ t1 :: t2 :: t3 :: t4 :: t5 :: rest) with
    | nil => simp
    | cons r rs =>
        have := hafter r (by rw [hrem]; rfl)
        simp [List.dropWhile_cons, this]
  have heat := eatCommaGroups_groups groups
    (ws ++ t1 :: t2 :: t3 :: t4 :: t5 :: rest) hg htail
  have hwsdrop : (ws ++ t1 :: t2 :: t3 :: t4 :: t5 :: rest).dropWhile jsWs =
      t1 :: t2 :: t3 :: t4 :: t5 :: rest := by
    rw [List.dropWhile_append_of_pos (by intro a hc; exact hws a hc)]
    simp [List.dropWhile_cons, ht1ws]
  have hword : matchTokenWord (t1 :: t2 :: t3 :: t4 :: t5 :: rest) = true := by
    rcases ht1 with h | h <;> subst h <;>
      rcases ht2 with h | h <;> subst h <;>
        rcases ht3 with h | h <;> subst h <;>
          rcases ht4 with h | h <;> subst h <;>
            rcases ht5 with h | h <;> subst h <;> rfl
  unfold tryTokenMatch
  simp only [htake, hdrop, heat, hwsdrop, hword, if_true]
  rw [if_neg hlead]

/-- C10: a summary consisting of a digit-free prefix, then a decimal number
with optional comma grouping, then optional whitespace and the word token
in any letter case, parses to that number with commas removed, taking
priority over the character-count heuristic; when the regex finds no match
the function falls back to estimateTokens, and an empty summary yields
0. -/
theorem parseConversationTokens_spec
    (pre leading : List Char) (groups : List (List Char)) (ws : List Char)
    (t1 t2 t3 t4 t5 : Char) (rest : List Char)
    (hpre : ∀ c ∈ pre, c.isDigit = false)
    (hlead : leading ≠ []) (hleadD : ∀ c ∈ leading, c.isDigit = true)
    (hg : ∀ g ∈ groups, g ≠ [] ∧ ∀ c ∈ g, c.isDigit = true)
    (hws : ∀ c ∈ ws, jsWs c = true)
    (ht1 : t1 = 't' ∨ t1 = 'T') (ht2 : t2 = 'o' ∨ t2 = 'O')
    (ht3 : t3 = 'k' ∨ t3 = 'K') (ht4 : t4 = 'e' ∨ t4 = 'E')
    (ht5 : t5 = 'n' ∨ t5 = 'N') :
    parseConversationTokens
        ⟨pre ++ (leading ++ ((groups.map (fun g => ',' :: g)).flatten ++
          (ws ++ t1 :: t2 :: t3 :: t4 :: t5 :: rest)))⟩ =
      digitsToNat (leading ++ groups.flatten) ∧
    (∀ s : String, s ≠ "" → findTokenCount s.data = none →
      parseConversationTokens s = estimateTokens s) ∧
    parseConversationTokens "" = 0 := by
  refine ⟨?_, ?_, rfl⟩
  · obtain ⟨d, ds, rfl⟩ : ∃ d ds, leading = d :: ds := by
      cases leading with
      | nil => exact absurd rfl hlead
      | cons d ds => exact ⟨d, ds, rfl⟩
    have hLne : pre ++ ((d :: ds) ++ ((groups.map (fun g => ',' :: g)).flatten ++
        (ws ++ t1 :: t2 :: t3 :: t4 :: t5 :: rest))) ≠ [] := by
      intro h
      rcases List.append_eq_nil.mp h with ⟨-, h2⟩
      exact List.cons_ne_nil _ _ (List.append_eq_nil.mp h2).1
    have hsne : (⟨pre ++ ((d :: ds) ++ ((groups.map (fun g => ',' :: g)).flatten ++
        (ws ++ t1 :: t2 :: t3 :: t4 :: t5 :: rest)))⟩ : String) ≠ "" := by
      intro h
      exact hLne (by simpa using congrArg String.data h)
    unfold parseConversationTokens
    rw [if_neg hsne]
    have hdata : (⟨pre ++ ((d :: ds) ++ ((groups.map (fun g => ',' :: g)).flatten ++
        (ws ++ t1 :: t2 :: t3 :: t4 :: t5 :: rest)))⟩ : String).data =
        pre ++ ((d :: ds) ++ ((groups.map (fun g => ',' :: g)).flatten ++
        (ws ++ t1 :: t2 :: t3 :: t4 :: t5 :: rest))) := rfl
    rw [hdata, findTokenCount_append_not_digit pre _ hpre]
    have htm := tryTokenMatch_grouped (d :: ds) groups ws t1 t2 t3 t4 t5 rest
      hlead hleadD hg hws ht1 ht2 ht3 ht4 ht5
    simp only [List.cons_append] at htm ⊢
    simp only [findTokenCount, htm]
  · intro s hs hnone
    unfold parseConversationTokens
    rw [if_neg hs, hnone]

/-- Witness for C10 at a concrete summary containing a grouped count. -/
theorem parseConversationTokens_spec_witness :
    parseConversationTokens "about 1,234 Tokens used" = 1234 := by
  have h := (parseConversationTokens_spec
    ['a', 'b', 'o', 'u', 't', ' '] ['1'] [['2', '3', '4']] [' ']
    'T' 'o' 'k' 'e' 'n' ['s', ' ', 'u', 's', 'e', 'd']
    (by decide) (by decide) (by decide) (by decide) (by decide)
    (by decide) (by decide) (by decide) (by decide) (by decide)).1
  have hs : (⟨['a', 'b', 'o', 'u', 't', ' '] ++ (['1'] ++
      (([['2', '3', '4']].map (fun g => ',' :: g)).flatten ++
        ([' '] ++ 'T' :: 'o' :: 'k' :: 'e' :: 'n' :: ['s', ' ', 'u', 's', 'e', 'd'])))⟩ : String) =
      "about 1,234 Tokens used" := by decide
  rw [hs] at h
  rw [h]
  decide

/-- ColorConfig record from src/types.ts. -/
structure ColorConfig where
  low : String
  medium : String
  high : String
deriving DecidableEq, Repr

/-- StatuslineConfig record from src/types.ts. -/
structure StatuslineConfig where
  maxTokens : ℤ
  progressBarWidth : ℤ
  showIcons : Bool
  colors : ColorConfig
deriving DecidableEq, Repr

/-- DEFAULT_CONFIG from src/config.ts. -/
def DEFAULT_CONFIG : StatuslineConfig :=
  { maxTokens := 200000
    progressBarWidth := 20
    showIcons := true
    colors := { low := "red", medium := "yellow", high := "green" } }

/-- The maximal leading digit run of the input, if nonempty, as a number. -/
def leadingDigits (l : List Char) : Option ℕ :=
  let ds := l.takeWhile Char.isDigit
  if ds = [] then none else some (digitsToNat ds)

/-- JavaScript parseInt(s, 10): skip leading whitespace, read an optional
sign and then the maximal digit run; no digits means NaN (here none). -/
def jsParseInt (s : String) : Option ℤ :=
  match s.data.dropWhile jsWs with
  | '-' :: rest => (leadingDigits rest).map (fun n => -(n : ℤ))
  | '+' :: rest => (leadingDigits rest).map (fun n => (n : ℤ))
  | rest => (leadingDigits rest).map (fun n => (n : ℤ))

/-- The STATUSLINE_MAX_TOKENS block of loadConfig: a truthy value that
parses to a number (only the NaN check) replaces maxTokens. -/
def applyMaxTokensEnv (cfg : StatuslineConfig) (v : Option String) : StatuslineConfig :=
  match v with
  | none => cfg
  | some s =>
      if s = "" then cfg
      else
        match jsParseInt s with
        | some parsed => { cfg with maxTokens := parsed }
        | none => cfg

/-- The STATUSLINE_PROGRESS_WIDTH block of loadConfig: a truthy value that
parses to a positive number replaces progressBarWidth. -/
def applyProgressWidthEnv (cfg : StatuslineConfig) (v : Option String) : StatuslineConfig :=
  match v with
  | none => cfg
  | some s =>
      if s = "" then cfg
      else
        match jsParseInt s with
        | some parsed =>
            if 0 < parsed then { cfg with progressBarWidth := parsed } else cfg
        | none => cfg

/-- The STATUSLINE_ICONS block of loadConfig. -/
def applyIconsEnv (cfg : StatuslineConfig) (v : Option String) : StatuslineConfig :=
  match v with
  | none => cfg
  | some s =>
      if s = "" then cfg
      else { cfg with showIcons := s == "true" || s == "1" }

/-- JavaScript String.prototype.includes as a substring test. -/
def jsIncludes (s pat : String) : Bool := decide (pat.data <:+: s.data)

/-- The Windows ASCII-fallback block of loadConfig: on the windows platform
without an xterm-like TERM and without WT_SESSION, icons are disabled. -/
def applyWindowsAsciiFallback (cfg : StatuslineConfig) (platform : String)
    (term wtSession : Option String) : StatuslineConfig :=
  if platform = "windows" then
    let termStr := term.getD ""
    let wtFalsy : Bool := match wtSession with | none => true | some s => s == ""
    if !(jsIncludes termStr "xterm") && wtFalsy then { cfg with showIcons := false }
    else cfg
  else cfg

/-- loadConfig from src/config.ts, with the process environment and the
platform passed explicitly. -/
def loadConfig (env : String → Option String) (platform : String) : StatuslineConfig :=
  applyWindowsAsciiFallback
    (applyIconsEnv
      (applyProgressWidthEnv
        (applyMaxTokensEnv DEFAULT_CONFIG (env "STATUSLINE_MAX_TOKENS"))
        (env "STATUSLINE_PROGRESS_WIDTH"))
      (env "STATUSLINE_ICONS"))
    platform (env "TERM") (env "WT_SESSION")

/-- The max-tokens block never touches the bar width. -/
theorem applyMaxTokensEnv_width (cfg : StatuslineConfig) (v : Option String) :
    (applyMaxTokensEnv cfg v).progressBarWidth = cfg.progressBarWidth := by
  cases v with
  | none => rfl
  | some s =>
      dsimp only [applyMaxTokensEnv]
      split_ifs
      · rfl
      · cases jsParseInt s <;> rfl

/-- The width block never touches maxTokens. -/
theorem applyProgressWidthEnv_max (cfg : StatuslineConfig) (v : Option String) :
    (applyProgressWidthEnv cfg v).maxTokens = cfg.maxTokens := by
  cases v with
  | none => rfl
  | some s =>
      dsimp only [applyProgressWidthEnv]
      split_ifs
      · rfl
      · cases h : jsParseInt s with
        | none => rfl
        | some z =>
            dsimp only []
            split_ifs <;> rfl

/-- The icons block touches neither numeric field. -/
theorem applyIconsEnv_nums (cfg : StatuslineConfig) (v : Option String) :
    (applyIconsEnv cfg v).maxTokens = cfg.maxTokens ∧
      (applyIconsEnv cfg v).progressBarWidth = cfg.progressBarWidth := by
  cases v with
  | none => exact ⟨rfl, rfl⟩
  | some s =>
      dsimp only [applyIconsEnv]
      split_ifs <;> exact ⟨rfl, rfl⟩

/-- The Windows fallback touches neither numeric field. -/
theorem applyWindowsAsciiFallback_nums (cfg : StatuslineConfig) (platform : String)
    (term wtSession : Option String) :
    (applyWindowsAsciiFallback cfg platform term wtSession).maxTokens = cfg.maxTokens ∧
      (applyWindowsAsciiFallback cfg platform term wtSession).progressBarWidth =
        cfg.progressBarWidth := by
  unfold applyWindowsAsciiFallback
  split_ifs with h1
  · dsimp only []
    split_ifs <;> exact ⟨rfl, rfl⟩
  · exact ⟨rfl, rfl⟩

/-- C2 counterexample: a negative STATUSLINE_MAX_TOKENS value is applied
as-is, so a non-positive configured max-token value does replace the
built-in default maximum, contradicting the claim. -/
theorem loadConfig_nonpositive_max_counterexample :
    (loadConfig (fun k => if k = "STATUSLINE_MAX_TOKENS" then some "-5" else none)
        "linux").maxTokens = -5 ∧
    ¬ (0 < (-5 : ℤ)) ∧
    (loadConfig (fun k => if k = "STATUSLINE_MAX_TOKENS" then some "-5" else none)
        "linux").maxTokens ≠ DEFAULT_CONFIG.maxTokens := by
  refine ⟨by decide, by decide, by decide⟩

/-- C2 (amended): the width override is fully validated, keeping the
default 20 for non-numeric or non-positive values, and any numeric
max-token value — positive or not — replaces the default, while a
non-numeric max-token value is discarded. -/
theorem loadConfig_env_validation (env : String → Option String) (platform : String) :
    (∀ s, env "STATUSLINE_PROGRESS_WIDTH" = some s → s ≠ "" →
      jsParseInt s = none → (loadConfig env platform).progressBarWidth = 20) ∧
    (∀ s z, env "STATUSLINE_PROGRESS_WIDTH" = some s → s ≠ "" →
      jsParseInt s = some z → z ≤ 0 → (loadConfig env platform).progressBarWidth = 20) ∧
    (∀ s, env "STATUSLINE_MAX_TOKENS" = some s → s ≠ "" →
      jsParseInt s = none → (loadConfig env platform).maxTokens = 200000) ∧
    (∀ s z, env "STATUSLINE_MAX_TOKENS" = some s → s ≠ "" →
      jsParseInt s = some z → (loadConfig env platform).maxTokens = z) := by
  have hwidth : (loadConfig env platform).progressBarWidth =
      (applyProgressWidthEnv
        (applyMaxTokensEnv DEFAULT_CONFIG (env "STATUSLINE_MAX_TOKENS"))
        (env "STATUSLINE_PROGRESS_WIDTH")).progressBarWidth := by
    unfold loadConfig
    rw [(applyWindowsAsciiFallback_nums _ _ _ _).2, (applyIconsEnv_nums _ _).2]
  have hmaxkeep : (loadConfig env platform).maxTokens =
      (applyMaxTokensEnv DEFAULT_CONFIG (env "STATUSLINE_MAX_TOKENS")).maxTokens := by
    unfold loadConfig
    rw [(applyWindowsAsciiFallback_nums _ _ _ _).1, (applyIconsEnv_nums _ _).1,
      applyProgressWidthEnv_max]
  have hbase : (applyMaxTokensEnv DEFAULT_CONFIG (env "STATUSLINE_MAX_TOKENS")).progressBarWidth
      = 20 := by rw [applyMaxTokensEnv_width]; rfl
  refine ⟨?_, ?_, ?_, ?_⟩
  · intro s hs hne hparse
    rw [hwidth, hs]
    dsimp only [applyProgressWidthEnv]
    rw [if_neg hne, hparse]
    exact hbase
  · intro s z hs hne hparse hz
    rw [hwidth, hs]
    dsimp only [applyProgressWidthEnv]
    rw [if_neg hne, hparse]
    dsimp only []
    rw [if_neg (by omega)]
    exact hbase
  · intro s hs hne hparse
    rw [hmaxkeep, hs]
    dsimp only [applyMaxTokensEnv]
    rw [if_neg hne, hparse]
    rfl
  · intro s z hs hne hparse
    rw [hmaxkeep, hs]
    dsimp only [applyMaxTokensEnv]
    rw [if_neg hne, hparse]

/-- Witness for C2's amended theorem at a concrete environment. -/
theorem loadConfig_env_validation_witness :
    (loadConfig (fun k => if k = "STATUSLINE_MAX_TOKENS" then some "-7"
        else if k = "STATUSLINE_PROGRESS_WIDTH" then some "0" else none)
      "linux").progressBarWidth = 20 ∧
    (loadConfig (fun k => if k = "STATUSLINE_MAX_TOKENS" then some "-7"
        else if k = "STATUSLINE_PROGRESS_WIDTH" then some "0" else none)
      "linux").maxTokens = -7 := by
  constructor
  · exact (loadConfig_env_validation _ "linux").2.1 "0" 0 (by decide) (by decide)
      (by decide) (by decide)
  · exact (loadConfig_env_validation _ "linux").2.2.2 "-7" (-7) (by decide) (by decide)
      (by decide)

/-- ANSI reset escape sequence from colors.ts. -/
def ansiReset : String := "\x1b[0m"

/-- The color combinator of colors.ts: prepend the escape code to the text
and append the reset sequence. -/
def colorWrap (code : String) (text : String) : String := code ++ text ++ ansiReset

namespace colors

/-- Bright green foreground from the exported colors object. -/
def green : String → String := colorWrap "\x1b[92m"

/-- Bright red foreground. -/
def red : String → String := colorWrap "\x1b[91m"

/-- Bright magenta foreground (named purple in the source). -/
def purple : String → String := colorWrap "\x1b[95m"

/-- Bright yellow foreground. -/
def yellow : String → String := colorWrap "\x1b[93m"

/-- 256-color orange foreground. -/
def orange : String → String := colorWrap "\x1b[38;5;208m"

/-- RGB peach foreground. -/
def peach : String → String := colorWrap "\x1b[38;2;222;115;86m"

/-- RGB peach background. -/
def bgPeach : String → String := colorWrap "\x1b[48;2;222;115;86m"

/-- Black foreground. -/
def black : String → String := colorWrap "\x1b[30m"

/-- White foreground. -/
def white : String → String := colorWrap "\x1b[37m"

/-- Bright black foreground (named gray in the source). -/
def gray : String → String := colorWrap "\x1b[90m"

/-- Bright white foreground (named lightGray in the source). -/
def lightGray : String → String := colorWrap "\x1b[97m"

/-- Black background. -/
def bgBlack : String → String := colorWrap "\x1b[40m"

/-- Bright black background. -/
def bgBlackBright : String → String := colorWrap "\x1b[100m"

/-- White background. -/
def bgWhite : String → String := colorWrap "\x1b[47m"

/-- Blue background. -/
def bgBlue : String → String := colorWrap "\x1b[44m"

/-- Magenta background. -/
def bgMagenta : String → String := colorWrap "\x1b[45m"

/-- Cyan background. -/
def bgCyan : String → String := colorWrap "\x1b[46m"

end colors

/-- Progress-bar glyph styles from the renderer types. -/
inductive ProgressBarStyle
  | filled
  | rectangle
  | braille
deriving DecidableEq, Repr

/-- Progress-bar color modes from the renderer types. -/
inductive ProgressBarColor
  | progressive
  | green
  | yellow
  | peach
  | black
  | white
  | red
deriving DecidableEq, Repr

/-- Progress-bar background choices from the renderer types. -/
inductive ProgressBarBackground
  | none
  | dark
  | gray
  | light
  | blue
  | purple
  | cyan
  | peach
deriving DecidableEq, Repr

/-- Path display modes from the renderer types. -/
inductive PathDisplayMode
  | full
  | truncated
  | basename
deriving DecidableEq, Repr

/-- getProgressBarColor from format.ts: progressive mode maps percentage
thresholds to gray, yellow, orange, red; a fixed mode picks one color, and
the fallthrough is red. -/
def getProgressBarColor (percentage : ℚ) (colorMode : ProgressBarColor) :
    String → String :=
  match colorMode with
  | .progressive =>
      if percentage < 50 then colors.gray
      else if percentage < 70 then colors.yellow
      else if percentage < 90 then colors.orange
      else colors.red
  | .green => colors.green
  | .yellow => colors.yellow
  | .peach => colors.peach
  | .black => colors.black
  | .white => colors.white
  | .red => colors.red

/-- getProgressBarBackground from format.ts. -/
def getProgressBarBackground (background : ProgressBarBackground) :
    Option (String → String) :=
  match background with
  | .none => Option.none
  | .dark => some colors.bgBlack
  | .gray => some colors.bgBlackBright
  | .light => some colors.bgWhite
  | .blue => some colors.bgBlue
  | .purple => some colors.bgMagenta
  | .cyan => some colors.bgCyan
  | .peach => some colors.bgPeach

/-- The background ternary of format.ts: apply the background wrapper when
one is configured. -/
def applyBg (bgFn : Option (String → String)) (s : String) : String :=
  match bgFn with
  | some f => f s
  | Option.none => s

/-- JavaScript String.prototype.repeat for a nonnegative count. -/
def jsRepeat (s : String) : ℕ → String
  | 0 => ""
  | n + 1 => s ++ jsRepeat s n

/-- formatProgressBarFilled from format.ts: rounded filled count, the rest
empty, both runs wrapped in the resolved color and background. -/
def formatProgressBarFilled (percentage : ℚ) (length : ℕ)
    (colorMode : ProgressBarColor) (background : ProgressBarBackground) : String :=
  let filled := jsRound (percentage / 100 * length)
  let empty := (length : ℤ) - filled
  let filledBar := jsRepeat "█" filled.toNat
  let emptyBar := jsRepeat "░" empty.toNat
  let colorFn := getProgressBarColor percentage colorMode
  let bgFn := getProgressBarBackground background
  applyBg bgFn (colorFn filledBar) ++ applyBg bgFn (colorFn emptyBar)

/-- formatProgressBarRectangle from format.ts: identical to the filled
style with rectangle glyphs. -/
def formatProgressBarRectangle (percentage : ℚ) (length : ℕ)
    (colorMode : ProgressBarColor) (background : ProgressBarBackground) : String :=
  let filled := jsRound (percentage / 100 * length)
  let empty := (length : ℤ) - filled
  let filledBar := jsRepeat "▰" filled.toNat
  let emptyBar := jsRepeat "▱" empty.toNat
  let colorFn := getProgressBarColor percentage colorMode
  let bgFn := getProgressBarBackground background
  applyBg bgFn (colorFn filledBar) ++ applyBg bgFn (colorFn emptyBar)

/-- The seven-level braille palette of formatProgressBarBraille. -/
def brailleChars : List String := ["⣀", "⣄", "⣤", "⣦", "⣶", "⣷", "⣿"]

/-- currentStep of the braille style: the percentage mapped onto
length * (K - 1) discrete steps and rounded. -/
def brailleCurrentStep (percentage : ℚ) (length : ℕ) : ℤ :=
  jsRound (percentage / 100 * ((length * (brailleChars.length - 1) : ℕ) : ℚ))

/-- fullBlocks of the braille style: Math.floor(currentStep / (K - 1)). -/
def brailleFullBlocks (percentage : ℚ) (length : ℕ) : ℤ :=
  ⌊(brailleCurrentStep percentage length : ℚ) / ((brailleChars.length - 1 : ℕ) : ℚ)⌋

/-- partialIndex of the braille style: currentStep mod (K - 1) (the
operands are nonnegative in range, where the JavaScript remainder agrees
with emod). -/
def braillePartialIndex (percentage : ℚ) (length : ℕ) : ℤ :=
  brailleCurrentStep percentage length % ((brailleChars.length - 1 : ℕ) : ℤ)

/-- emptyBlocks of the braille style. -/
def brailleEmptyBlocks (percentage : ℚ) (length : ℕ) : ℤ :=
  (length : ℤ) - brailleFullBlocks percentage length -
    (if 0 < braillePartialIndex percentage length then 1 else 0)

/-- formatProgressBarBraille from format.ts: full blocks, an optional
partial glyph, then empty blocks, each wrapped in color and background. -/
def formatProgressBarBraille (percentage : ℚ) (length : ℕ)
    (colorMode : ProgressBarColor) (background : ProgressBarBackground) : String :=
  let fullBlocks := brailleFullBlocks percentage length
  let partialIndex := braillePartialIndex percentage length
  let emptyBlocks := brailleEmptyBlocks percentage length
  let colorFn := getProgressBarColor percentage colorMode
  let bgFn := getProgressBarBackground background
  let fullPart := applyBg bgFn (colorFn (jsRepeat "⣿" fullBlocks.toNat))
  let partialPart :=
    if 0 < partialIndex then
      applyBg bgFn (colorFn (brailleChars.getD partialIndex.toNat ""))
    else ""
  let emptyPart :=
    if 0 < emptyBlocks then applyBg bgFn (colorFn (jsRepeat "⣀" emptyBlocks.toNat))
    else ""
  fullPart ++ partialPart ++ emptyPart

/-- formatDuration from format.ts: whole minutes from milliseconds, split
into hours and a minute remainder; the minute part is omitted when zero
and hours are omitted below one hour. -/
def formatDuration (ms : ℕ) : String :=
  let minutes := ms / 60000
  let hours := minutes / 60
  let mins := minutes % 60
  if 0 < hours then
    if 0 < mins then toString hours ++ "h" ++ toString mins ++ "m"
    else toString hours ++ "h"
  else toString mins ++ "m"

/-- JavaScript String.prototype.split (by a character class) on character
lists: separators delimit possibly empty pieces. -/
def splitChars (p : Char → Bool) : List Char → List (List Char)
  | [] => [[]]
  | c :: cs =>
      match splitChars p cs with
      | [] => [[]]
      | g :: gs => if p c then [] :: g :: gs else (c :: g) :: gs

/-- JavaScript String.prototype.split as a list of strings. -/
def jsSplit (s : String) (p : Char → Bool) : List String :=
  (splitChars p s.data).map (fun l => (⟨l⟩ : String))

/-- JavaScript String.prototype.startsWith. -/
def jsStartsWith (s pat : String) : Bool := pat.data.isPrefixOf s.data

/-- JavaScript String.prototype.slice from a character index to the end. -/
def jsDrop (s : String) (n : ℕ) : String := ⟨s.data.drop n⟩

/-- Array.prototype.join with a separator. -/
def joinSep (sep : String) : List String → String
  | [] => ""
  | x :: xs => xs.foldl (fun acc y => acc ++ sep ++ y) x

namespace FormatTs

/-- formatPath from format.ts, with the home directory passed explicitly:
substitute a leading home prefix with a tilde, then apply the display
mode (basename keeps the last nonempty segment, truncated keeps the last
two segments behind an ellipsis when more than two remain). -/
def formatPath (path : String) (mode : PathDisplayMode) (home : String) : String :=
  let formattedPath :=
    if home ≠ "" ∧ jsStartsWith path home then "~" ++ jsDrop path home.length
    else path
  if mode = PathDisplayMode.basename then
    let segments := (jsSplit path (fun c => c == '/' || c == '\\')).filter
      (fun s => 0 < s.length)
    match segments.getLast? with
    | some last => if last ≠ "" then last else path
    | Option.none => path
  else if mode = PathDisplayMode.truncated then
    let segments := (jsSplit formattedPath (fun c => c == '/' || c == '\\')).filter
      (fun s => 0 < s.length)
    if 2 < segments.length then
      "…" ++ "/" ++ joinSep "/" (segments.drop (segments.length - 2))
    else formattedPath
  else formattedPath

end FormatTs

namespace HookGit

/-- formatPath from hooks/utils/git.ts: the repository root is a tilde,
short relative paths are kept under the tilde, and deeper ones keep only
the first and last segment around an ellipsis. -/
def formatPath (relativePath : String) (maxLength : ℕ := 30) : String :=
  if relativePath = "." then "~"
  else
    let segments := jsSplit relativePath (fun c => c == '/')
    if segments.length ≤ 2 then "~/" ++ relativePath
    else "~/" ++ segments.headD "" ++ "/.../" ++ (segments.getLast?.getD "")

end HookGit

/-- Rounding a natural number returns it unchanged. -/
theorem jsRound_natCast (n : ℕ) : jsRound (n : ℚ) = n := by
  rw [show ((n : ℚ)) = (((n : ℤ)) : ℚ) by push_cast; ring, jsRound_intCast]

/-- C5 counterexample: at exactly one hour the formatter omits the zero
minutes, returning 1h instead of the claimed hours-and-minutes shape
1h0m. -/
theorem formatDuration_hour_counterexample :
    formatDuration 3600000 = "1h" ∧ ("1h" : String) ≠ "1h0m" := by
  refine ⟨by decide, by decide⟩

/-- C5 (amended): at one hour or more the formatter returns XhYm only when
the minute remainder is nonzero and plain Xh when it is zero; below one
hour it returns Ym, and below one minute exactly 0m. -/
theorem formatDuration_spec (ms : ℕ) :
    (3600000 ≤ ms → 0 < ms / 60000 % 60 →
      formatDuration ms =
        toString (ms / 60000 / 60) ++ "h" ++ toString (ms / 60000 % 60) ++ "m") ∧
    (3600000 ≤ ms → ms / 60000 % 60 = 0 →
      formatDuration ms = toString (ms / 60000 / 60) ++ "h") ∧
    (ms < 3600000 → formatDuration ms = toString (ms / 60000 % 60) ++ "m") ∧
    (ms < 60000 → formatDuration ms = "0m") := by
  refine ⟨?_, ?_, ?_, ?_⟩
  · intro h1 h2
    simp only [formatDuration]
    split_ifs <;> first | rfl | omega
  · intro h1 h2
    simp only [formatDuration]
    split_ifs <;> first | rfl | omega
  · intro h1
    simp only [formatDuration]
    split_ifs <;> first | rfl | omega
  · intro h1
    have hz : ms / 60000 % 60 = 0 := by omega
    simp only [formatDuration]
    rw [hz]
    split_ifs <;> first | decide | omega

/-- Witness for C5's amended theorem at concrete durations. -/
theorem formatDuration_spec_witness :
    formatDuration 3900000 = "1h5m" ∧ formatDuration 59000 = "0m" := by
  constructor
  · have h := (formatDuration_spec 3900000).1 (by norm_num) (by norm_num)
    rw [h]
    rfl
  · exact (formatDuration_spec 59000).2.2.2 (by norm_num)

/-- C8: the hook path formatter maps the repository root to a tilde and a
single segment to a tilde prefix; the native formatter in truncated mode
turns a four-segment path into an ellipsis followed by the last two
segments, for any home directory that is not a prefix of the path. -/
theorem formatPath_spec (home : String)
    (h : home = "" ∨ jsStartsWith "src/a/b/c" home = false) :
    HookGit.formatPath "." = "~" ∧
    HookGit.formatPath "src" = "~/src" ∧
    FormatTs.formatPath "src/a/b/c" PathDisplayMode.truncated home = "…" ++ "/" ++ "b/c" ∧
    ("b/c" : String).data.isSuffixOf ("…" ++ "/" ++ "b/c" : String).data = true := by
  refine ⟨by decide, by decide, ?_, by decide⟩
  rcases h with h | h
  · subst h
    decide
  · have hcond : ¬(home ≠ "" ∧ jsStartsWith "src/a/b/c" home = true) := by
      simp [h]
    simp only [FormatTs.formatPath]
    rw [if_neg hcond]
    decide

/-- Witness for C8 at a concrete home directory. -/
theorem formatPath_spec_witness :
    HookGit.formatPath "." = "~" ∧
    HookGit.formatPath "src" = "~/src" ∧
    FormatTs.formatPath "src/a/b/c" PathDisplayMode.truncated "/home/user" =
      "…" ++ "/" ++ "b/c" ∧
    ("b/c" : String).data.isSuffixOf ("…" ++ "/" ++ "b/c" : String).data = true :=
  formatPath_spec "/home/user" (Or.inr (by decide))

/-- C3: for the braille palette of size seven, currentStep is monotone in
the percentage on [0, 100], fullBlocks never exceeds the bar length, and
fullBlocks, emptyBlocks and the optional partial cell always account for
the whole bar. -/
theorem braille_invariants (length : ℕ) (hL : 1 ≤ length) :
    (∀ p1 p2 : ℚ, 0 ≤ p1 → p1 ≤ p2 → p2 ≤ 100 →
      brailleCurrentStep p1 length ≤ brailleCurrentStep p2 length) ∧
    (∀ p : ℚ, 0 ≤ p → p ≤ 100 → brailleFullBlocks p length ≤ length) ∧
    (∀ p : ℚ, brailleFullBlocks p length + brailleEmptyBlocks p length +
      (if 0 < braillePartialIndex p length then 1 else 0) = length) := by
  have hlen6 : ((length * (brailleChars.length - 1) : ℕ) : ℚ) = 6 * (length : ℚ) := by
    norm_num [brailleChars]
    ring
  refine ⟨?_, ?_, ?_⟩
  · intro p1 p2 hp1 hp12 hp2
    unfold brailleCurrentStep
    apply jsRound_le_jsRound
    apply mul_le_mul_of_nonneg_right _ (by positivity)
    linarith
  · intro p hp0 hp100
    have hcs : brailleCurrentStep p length ≤ (length * (brailleChars.length - 1) : ℕ) := by
      unfold brailleCurrentStep
      have harg : p / 100 * ((length * (brailleChars.length - 1) : ℕ) : ℚ) ≤
          ((length * (brailleChars.length - 1) : ℕ) : ℚ) := by
        rw [hlen6]
        nlinarith
      have := jsRound_le_jsRound harg
      rwa [jsRound_natCast] at this
    unfold brailleFullBlocks
    have h6 : ((brailleChars.length - 1 : ℕ) : ℚ) = 6 := by norm_num [brailleChars]
    rw [h6]
    have hdivle : (brailleCurrentStep p length : ℚ) / 6 ≤ (length : ℚ) := by
      rw [div_le_iff (by norm_num : (0 : ℚ) < 6)]
      have : ((brailleCurrentStep p length : ℤ) : ℚ) ≤
          ((length * (brailleChars.length - 1) : ℕ) : ℚ) := by exact_mod_cast hcs
      rw [hlen6] at this
      linarith
    calc ⌊(brailleCurrentStep p length : ℚ) / 6⌋ ≤ ⌊(length : ℚ)⌋ :=
          Int.floor_le_floor hdivle
      _ = length := Int.floor_natCast length
  · intro p
    unfold brailleEmptyBlocks
    ring

/-- Witness for C3 at a concrete length and percentages. -/
theorem braille_invariants_witness :
    brailleFullBlocks 50 10 + brailleEmptyBlocks 50 10 +
      (if 0 < braillePartialIndex 50 10 then 1 else 0) = 10 ∧
    brailleFullBlocks 100 10 ≤ 10 ∧
    brailleCurrentStep 40 10 ≤ brailleCurrentStep 60 10 := by
  refine ⟨(braille_invariants 10 (by norm_num)).2.2 50,
    (braille_invariants 10 (by norm_num)).2.1 100 (by norm_num) (by norm_num),
    (braille_invariants 10 (by norm_num)).1 40 60 (by norm_num) (by norm_num) (by norm_num)⟩

/-- Number of occurrences of a glyph in a rendered string. -/
def glyphCount (s : String) (g : Char) : ℕ := s.data.count g

/-- Glyph counts add over string concatenation. -/
theorem glyphCount_append (a b : String) (g : Char) :
    glyphCount (a ++ b) g = glyphCount a g + glyphCount b g := by
  simp [glyphCount, String.data_append, List.count_append]

/-- Glyph counts scale over repetition. -/
theorem glyphCount_jsRepeat (s : String) (n : ℕ) (g : Char) :
    glyphCount (jsRepeat s n) g = n * glyphCount s g := by
  induction n with
  | zero => simp [jsRepeat, glyphCount]
  | succ n ih =>
      rw [jsRepeat, glyphCount_append, ih]
      ring

/-- The empty string contains no glyph. -/
theorem glyphCount_empty (g : Char) : glyphCount "" g = 0 := rfl

/-- The glyphs used by the three bar styles. -/
def barGlyphs : List Char := ['█', '░', '▰', '▱', '⣀', '⣄', '⣤', '⣦', '⣶', '⣷', '⣿']

/-- Every resolved foreground color is an escape-code wrapper whose code
contains no bar glyph. -/
theorem color_code_exists (p : ℚ) (cm : ProgressBarColor) :
    ∃ code, getProgressBarColor p cm = colorWrap code ∧
      ∀ g ∈ barGlyphs, glyphCount code g = 0 := by
  cases cm with
  | progressive =>
      unfold getProgressBarColor
      split_ifs <;> exact ⟨_, rfl, by decide⟩
  | green => exact ⟨_, rfl, by decide⟩
  | yellow => exact ⟨_, rfl, by decide⟩
  | peach => exact ⟨_, rfl, by decide⟩
  | black => exact ⟨_, rfl, by decide⟩
  | white => exact ⟨_, rfl, by decide⟩
  | red => exact ⟨_, rfl, by decide⟩

/-- Every resolved background is absent or an escape-code wrapper whose
code contains no bar glyph. -/
theorem bg_code_cases (b : ProgressBarBackground) :
    getProgressBarBackground b = Option.none ∨
      ∃ code, getProgressBarBackground b = some (colorWrap code) ∧
        ∀ g ∈ barGlyphs, glyphCount code g = 0 := by
  cases b with
  | none => exact Or.inl rfl
  | dark => exact Or.inr ⟨_, rfl, by decide⟩
  | gray => exact Or.inr ⟨_, rfl, by decide⟩
  | light => exact Or.inr ⟨_, rfl, by decide⟩
  | blue => exact Or.inr ⟨_, rfl, by decide⟩
  | purple => exact Or.inr ⟨_, rfl, by decide⟩
  | cyan => exact Or.inr ⟨_, rfl, by decide⟩
  | peach => exact Or.inr ⟨_, rfl, by decide⟩

/-- The reset sequence contains no bar glyph. -/
theorem ansiReset_glyphFree : ∀ g ∈ barGlyphs, glyphCount ansiReset g = 0 := by decide

/-- Wrapping in an escape code is transparent to glyph counting. -/
theorem glyphCount_colorWrap (code s : String) (g : Char)
    (hc : glyphCount code g = 0) (hr : glyphCount ansiReset g = 0) :
    glyphCount (colorWrap code s) g = glyphCount s g := by
  unfold colorWrap
  rw [glyphCount_append, glyphCount_append, hc, hr]
  ring

/-- Color and background wrapping are transparent to bar-glyph counting. -/
theorem glyphCount_wrap (p : ℚ) (cm : ProgressBarColor) (b : ProgressBarBackground)
    (s : String) (g : Char) (hg : g ∈ barGlyphs) :
    glyphCount (applyBg (getProgressBarBackground b) (getProgressBarColor p cm s)) g =
      glyphCount s g := by
  obtain ⟨code, hcode, hfree⟩ := color_code_exists p cm
  have hr := ansiReset_glyphFree g hg
  rcases bg_code_cases b with hb | ⟨bcode, hb, hbfree⟩
  · rw [hb, hcode]
    simp only [applyBg]
    exact glyphCount_colorWrap code s g (hfree g hg) hr
  · rw [hb, hcode]
    simp only [applyBg]
    rw [glyphCount_colorWrap bcode _ g (hbfree g hg) hr]
    exact glyphCount_colorWrap code s g (hfree g hg) hr

/-- Glyph counts of the filled style in terms of its two runs. -/
theorem formatProgressBarFilled_count (p : ℚ) (L : ℕ) (cm : ProgressBarColor)
    (b : ProgressBarBackground) (g : Char) (hg : g ∈ barGlyphs) :
    glyphCount (formatProgressBarFilled p L cm b) g =
      (jsRound (p / 100 * L)).toNat * glyphCount "█" g +
      ((L : ℤ) - jsRound (p / 100 * L)).toNat * glyphCount "░" g := by
  have hw : ∀ s, glyphCount
      (applyBg (getProgressBarBackground b) (getProgressBarColor p cm s)) g =
      glyphCount s g := fun s => glyphCount_wrap p cm b s g hg
  simp only [formatProgressBarFilled]
  rw [glyphCount_append, hw, hw, glyphCount_jsRepeat, glyphCount_jsRepeat]

/-- Glyph counts of the rectangle style in terms of its two runs. -/
theorem formatProgressBarRectangle_count (p : ℚ) (L : ℕ) (cm : ProgressBarColor)
    (b : ProgressBarBackground) (g : Char) (hg : g ∈ barGlyphs) :
    glyphCount (formatProgressBarRectangle p L cm b) g =
      (jsRound (p / 100 * L)).toNat * glyphCount "▰" g +
      ((L : ℤ) - jsRound (p / 100 * L)).toNat * glyphCount "▱" g := by
  have hw : ∀ s, glyphCount
      (applyBg (getProgressBarBackground b) (getProgressBarColor p cm s)) g =
      glyphCount s g := fun s => glyphCount_wrap p cm b s g hg
  simp only [formatProgressBarRectangle]
  rw [glyphCount_append, hw, hw, glyphCount_jsRepeat, glyphCount_jsRepeat]

/-- Glyph counts of the braille style in terms of its three parts. -/
theorem formatProgressBarBraille_count (p : ℚ) (L : ℕ) (cm : ProgressBarColor)
    (b : ProgressBarBackground) (g : Char) (hg : g ∈ barGlyphs) :
    glyphCount (formatProgressBarBraille p L cm b) g =
      (brailleFullBlocks p L).toNat * glyphCount "⣿" g +
      (if 0 < braillePartialIndex p L then
        glyphCount (brailleChars.getD (braillePartialIndex p L).toNat "") g
      else 0) +
      (if 0 < brailleEmptyBlocks p L then
        (brailleEmptyBlocks p L).toNat * glyphCount "⣀" g
      else 0) := by
  have hw : ∀ s, glyphCount
      (applyBg (getProgressBarBackground b) (getProgressBarColor p cm s)) g =
      glyphCount s g := fun s => glyphCount_wrap p cm b s g hg
  simp only [formatProgressBarBraille]
  rw [glyphCount_append, glyphCount_append, hw, glyphCount_jsRepeat]
  congr 1
  · congr 1
    split_ifs with h1
    · rw [hw]
    · exact glyphCount_empty g
  · split_ifs with h1
    · rw [hw, glyphCount_jsRepeat]
    · exact glyphCount_empty g

/-- Rounding zero gives zero. -/
theorem jsRound_zero : jsRound 0 = 0 := by
  rw [show (0 : ℚ) = ((0 : ℤ) : ℚ) by norm_num, jsRound_intCast]

/-- The braille step count at zero percent. -/
theorem brailleCurrentStep_zero (L : ℕ) : brailleCurrentStep 0 L = 0 := by
  unfold brailleCurrentStep
  rw [show (0 : ℚ) / 100 * ((L * (brailleChars.length - 1) : ℕ) : ℚ) = 0 by ring]
  exact jsRound_zero

/-- The braille block counts at zero percent. -/
theorem braille_zero_pieces (L : ℕ) :
    brailleFullBlocks 0 L = 0 ∧ braillePartialIndex 0 L = 0 ∧
      brailleEmptyBlocks 0 L = L := by
  have hfb : brailleFullBlocks 0 L = 0 := by
    unfold brailleFullBlocks
    rw [brailleCurrentStep_zero]
    norm_num
  have hpi : braillePartialIndex 0 L = 0 := by
    unfold braillePartialIndex
    rw [brailleCurrentStep_zero]
    simp
  refine ⟨hfb, hpi, ?_⟩
  unfold brailleEmptyBlocks
  rw [hfb, hpi]
  simp

/-- The braille step count at one hundred percent. -/
theorem brailleCurrentStep_hundred (L : ℕ) :
    brailleCurrentStep 100 L = ((L * (brailleChars.length - 1) : ℕ) : ℤ) := by
  unfold brailleCurrentStep
  rw [show (100 : ℚ) / 100 * ((L * (brailleChars.length - 1) : ℕ) : ℚ) =
    ((L * (brailleChars.length - 1) : ℕ) : ℚ) by ring, jsRound_natCast]

/-- The braille block counts at one hundred percent. -/
theorem braille_hundred_pieces (L : ℕ) :
    brailleFullBlocks 100 L = L ∧ braillePartialIndex 100 L = 0 ∧
      brailleEmptyBlocks 100 L = 0 := by
  have hlen : (L * (brailleChars.length - 1) : ℕ) = L * 6 := by norm_num [brailleChars]
  have hfb : brailleFullBlocks 100 L = L := by
    unfold brailleFullBlocks
    rw [brailleCurrentStep_hundred, hlen]
    rw [show ((((L * 6 : ℕ) : ℤ)) : ℚ) = (L : ℚ) * 6 by push_cast; ring]
    rw [show ((brailleChars.length - 1 : ℕ) : ℚ) = 6 by norm_num [brailleChars]]
    rw [mul_div_assoc, show (6 : ℚ) / 6 = 1 by norm_num, mul_one, Int.floor_natCast]
  have hpi : braillePartialIndex 100 L = 0 := by
    unfold braillePartialIndex
    rw [brailleCurrentStep_hundred, hlen]
    rw [show ((brailleChars.length - 1 : ℕ) : ℤ) = 6 by norm_num [brailleChars]]
    omega
  refine ⟨hfb, hpi, ?_⟩
  unfold brailleEmptyBlocks
  rw [hfb, hpi]
  simp

/-- C6: at percentage zero each of the three styles renders a bar with no
filled (or partial) glyph and exactly length empty glyphs; at percentage
one hundred each renders exactly length filled glyphs and nothing else,
for every bar length, color mode and background. -/
theorem render_empty_and_full (L : ℕ) (hL : 1 ≤ L) (cm : ProgressBarColor)
    (b : ProgressBarBackground) :
    glyphCount (formatProgressBarFilled 0 L cm b) '█' = 0 ∧
    glyphCount (formatProgressBarFilled 0 L cm b) '░' = L ∧
    glyphCount (formatProgressBarFilled 100 L cm b) '█' = L ∧
    glyphCount (formatProgressBarFilled 100 L cm b) '░' = 0 ∧
    glyphCount (formatProgressBarRectangle 0 L cm b) '▰' = 0 ∧
    glyphCount (formatProgressBarRectangle 0 L cm b) '▱' = L ∧
    glyphCount (formatProgressBarRectangle 100 L cm b) '▰' = L ∧
    glyphCount (formatProgressBarRectangle 100 L cm b) '▱' = 0 ∧
    glyphCount (formatProgressBarBraille 0 L cm b) '⣿' = 0 ∧
    glyphCount (formatProgressBarBraille 0 L cm b) '⣀' = L ∧
    (∀ g ∈ (['⣄', '⣤', '⣦', '⣶', '⣷'] : List Char),
      glyphCount (formatProgressBarBraille 0 L cm b) g = 0) ∧
    glyphCount (formatProgressBarBraille 100 L cm b) '⣿' = L ∧
    glyphCount (formatProgressBarBraille 100 L cm b) '⣀' = 0 ∧
    (∀ g ∈ (['⣄', '⣤', '⣦', '⣶', '⣷'] : List Char),
      glyphCount (formatProgressBarBraille 100 L cm b) g = 0) := by
  have h0 : jsRound ((0 : ℚ) / 100 * L) = 0 := by
    rw [show (0 : ℚ) / 100 * (L : ℚ) = 0 by ring]
    exact jsRound_zero
  have h100 : jsRound ((100 : ℚ) / 100 * L) = (L : ℤ) := by
    rw [show (100 : ℚ) / 100 * (L : ℚ) = (L : ℚ) by ring, jsRound_natCast]
  obtain ⟨hfb0, hpi0, heb0⟩ := braille_zero_pieces L
  obtain ⟨hfb1, hpi1, heb1⟩ := braille_hundred_pieces L
  have hLpos : (0 : ℤ) < (L : ℤ) := by exact_mod_cast hL
  refine ⟨?_, ?_, ?_, ?_, ?_, ?_, ?_, ?_, ?_, ?_, ?_, ?_, ?_, ?_⟩
  · rw [formatProgressBarFilled_count 0 L cm b '█' (by decide), h0]
    have c2 : glyphCount "░" '█' = 0 := by decide
    simp [c2]
  · rw [formatProgressBarFilled_count 0 L cm b '░' (by decide), h0]
    have c1 : glyphCount "░" '░' = 1 := by decide
    have c2 : glyphCount "█" '░' = 0 := by decide
    simp [c1, c2]
  · rw [formatProgressBarFilled_count 100 L cm b '█' (by decide), h100]
    have c1 : glyphCount "█" '█' = 1 := by decide
    have c2 : glyphCount "░" '█' = 0 := by decide
    simp [c1, c2]
  · rw [formatProgressBarFilled_count 100 L cm b '░' (by decide), h100]
    have c2 : glyphCount "█" '░' = 0 := by decide
    simp [c2]
  · rw [formatProgressBarRectangle_count 0 L cm b '▰' (by decide), h0]
    have c2 : glyphCount "▱" '▰' = 0 := by decide
    simp [c2]
  · rw [formatProgressBarRectangle_count 0 L cm b '▱' (by decide), h0]
    have c1 : glyphCount "▱" '▱' = 1 := by decide
    have c2 : glyphCount "▰" '▱' = 0 := by decide
    simp [c1, c2]
  · rw [formatProgressBarRectangle_count 100 L cm b '▰' (by decide), h100]
    have c1 : glyphCount "▰" '▰' = 1 := by decide
    have c2 : glyphCount "▱" '▰' = 0 := by decide
    simp [c1, c2]
  · rw [formatProgressBarRectangle_count 100 L cm b '▱' (by decide), h100]
    have c2 : glyphCount "▰" '▱' = 0 := by decide
    simp [c2]
  · rw [formatProgressBarBraille_count 0 L cm b '⣿' (by decide), hfb0, hpi0, heb0]
    have c1 : glyphCount "⣀" '⣿' = 0 := by decide
    simp [c1]
  · rw [formatProgressBarBraille_count 0 L cm b '⣀' (by decide), hfb0, hpi0, heb0]
    have c1 : glyphCount "⣀" '⣀' = 1 := by decide
    rw [if_pos hLpos]
    simp [c1]
  · intro g hg
    fin_cases hg <;>
      · rw [formatProgressBarBraille_count 0 L cm b _ (by decide), hfb0, hpi0, heb0]
        have c1 : glyphCount "⣀" '⣄' = 0 ∧ glyphCount "⣀" '⣤' = 0 ∧
            glyphCount "⣀" '⣦' = 0 ∧ glyphCount "⣀" '⣶' = 0 ∧
            glyphCount "⣀" '⣷' = 0 := by decide
        simp [c1.1, c1.2.1, c1.2.2.1, c1.2.2.2.1, c1.2.2.2.2]
  · rw [formatProgressBarBraille_count 100 L cm b '⣿' (by decide), hfb1, hpi1, heb1]
    have c1 : glyphCount "⣿" '⣿' = 1 := by decide
    simp [c1]
  · rw [formatProgressBarBraille_count 100 L cm b '⣀' (by decide), hfb1, hpi1, heb1]
    have c1 : glyphCount "⣿" '⣀' = 0 := by decide
    simp [c1]
  · intro g hg
    fin_cases hg <;>
      · rw [formatProgressBarBraille_count 100 L cm b _ (by decide), hfb1, hpi1, heb1]
        have c1 : glyphCount "⣿" '⣄' = 0 ∧ glyphCount "⣿" '⣤' = 0 ∧
            glyphCount "⣿" '⣦' = 0 ∧ glyphCount "⣿" '⣶' = 0 ∧
            glyphCount "⣿" '⣷' = 0 := by decide
        simp [c1.1, c1.2.1, c1.2.2.1, c1.2.2.2.1, c1.2.2.2.2]

/-- Witness for C6 at a concrete length, color mode and background. -/
theorem render_empty_and_full_witness :
    glyphCount (formatProgressBarFilled 0 10 ProgressBarColor.progressive
      ProgressBarBackground.none) '█' = 0 ∧
    glyphCount (formatProgressBarFilled 100 10 ProgressBarColor.progressive
      ProgressBarBackground.none) '█' = 10 ∧
    glyphCount (formatProgressBarBraille 100 10 ProgressBarColor.progressive
      ProgressBarBackground.none) '⣿' = 10 := by
  have h := render_empty_and_full 10 (by norm_num) ProgressBarColor.progressive
    ProgressBarBackground.none
  exact ⟨h.1, h.2.2.1, h.2.2.2.2.2.2.2.2.2.2.2.1⟩

/-- The minimal hook envelope that session-start.ts serializes in its catch
block: only the hookEventName field. -/
def minimalHookEnvelope : String :=
  "\x7b\"hookSpecificOutput\":\x7b\"hookEventName\":\"SessionStart\"\x7d\x7d"

/-- Top-level error handling of the hook entry point (main in
session-start.ts): the body's outcome is caught, on error the minimal
envelope is written to standard output and the hook completes normally
with exit code 0. -/
def hookMainCaught (result : Except String String) : String × ℤ :=
  match result with
  | Except.ok out => (out, 0)
  | Except.error _ => (minimalHookEnvelope, 0)

/-- Top-level error handling of the native entry point (the main().catch
handler in src/index.ts): on error the message goes to standard error,
nothing is written to standard output, and process.exit(1) is called. -/
def nativeMainCaught (result : Except String String) : Option String × ℤ :=
  match result with
  | Except.ok out => (some out, 0)
  | Except.error _ => (Option.none, 1)

/-- C4 counterexample: on an unexpected failure the native entry point
exits with code 1, not 0, and emits no best-effort output line. -/
theorem native_exit_code_counterexample :
    (nativeMainCaught (Except.error "boom")).2 = 1 ∧
    (nativeMainCaught (Except.error "boom")).2 ≠ 0 ∧
    (nativeMainCaught (Except.error "boom")).1 = Option.none := by
  refine ⟨rfl, by decide, rfl⟩

/-- C4 (amended): the hook entry point downgrades every unexpected failure
to the minimal valid JSON envelope containing only hookEventName and exits
0, while the native entry point catches the failure at top level, writes
no statusline output, and exits 1. -/
theorem entry_error_handling (e : String) :
    hookMainCaught (Except.error e) = (minimalHookEnvelope, 0) ∧
    nativeMainCaught (Except.error e) = (Option.none, 1) :=
  ⟨rfl, rfl⟩

end Statusline
